import Mathlib

/-!
Verification development for the CME/CDF matching script (`4_script.py`).

The embedding models a pandas `DataFrame` as an ordered association list of
named, typed columns.  Timestamp parsing (`pd.to_datetime`), minute flooring
(`.dt.floor`), column classification (`select_dtypes`), per-event matching
(boolean mask on the truncated key), numeric mean (`Series.mean`, NaN-skipping)
and categorical mode (`Series.mode().iloc[0]`: NaN-dropping, modal values in
sorted order, first taken) are each translated from the source.  Missing
values (NaN / NaT / None) are `Option.none` or an explicit `missing`
constructor; exceptions are the `Except` monad; real numbers are `ℚ`.
-/

namespace CMEMatch

/-- A parsed calendar timestamp down to sub-second precision
(the result of a successful `pd.to_datetime` on one cell). -/
structure DT where
  year : Nat
  month : Nat
  day : Nat
  hour : Nat
  minute : Nat
  second : Nat
  nanosecond : Nat
deriving DecidableEq, Repr

/-- A truncated timestamp key: the timestamp floored to whole-minute
resolution, as produced by `.dt.floor('min')`. -/
structure TKey where
  year : Nat
  month : Nat
  day : Nat
  hour : Nat
  minute : Nat
deriving DecidableEq, Repr

/-- `dt.floor('min')` on one timestamp: keep year/month/day/hour/minute,
discard seconds and finer units. -/
def DT.floorMin (t : DT) : TKey :=
  ⟨t.year, t.month, t.day, t.hour, t.minute⟩

/-- One cell of a raw timestamp column as read from CSV: missing (NaN or an
empty cell, which `pd.to_datetime` turns into NaT), a string that parses to a
timestamp, or a string that `pd.to_datetime` rejects with an exception.
Whether a given string parses, and to what, is carried by the constructor;
the parser itself is outside the model. -/
inductive RawTS where
  | missing
  | valid (s : String) (t : DT)
  | invalid (s : String)
deriving DecidableEq, Repr

/-- The raw cell viewed as an object-dtype value (the string, or NaN). -/
def RawTS.str? : RawTS → Option String
  | RawTS.missing => none
  | RawTS.valid s _ => some s
  | RawTS.invalid s => some s

/-- Exceptions the translated function can raise: `KeyError` for a missing
column, the `pd.to_datetime` exception for an unparseable timestamp string,
and a guard for a designated timestamp column of an unexpected dtype. -/
inductive Err where
  | schemaError
  | parseError
  | dtypeError
deriving DecidableEq, Repr

/-- One column of a DataFrame, tagged with its dtype:
numeric (float/int, cells possibly NaN), object (strings, possibly NaN),
a raw timestamp column (object dtype, held as `RawTS` cells), a parsed
`datetime64` column, a truncated-key column, and a catch-all for dtypes that
are neither numeric nor object (bool, ...), of which only the length is
relevant. -/
inductive ColData where
  | num (vals : List (Option ℚ))
  | obj (vals : List (Option String))
  | ts (vals : List RawTS)
  | dt (vals : List (Option DT))
  | key (vals : List (Option TKey))
  | other (len : Nat)
deriving DecidableEq, Repr

/-- `select_dtypes(include='number')` membership. -/
def ColData.isNum : ColData → Bool
  | ColData.num _ => true
  | _ => false

/-- `select_dtypes(include='object')` membership (raw timestamp columns are
string-valued, hence object dtype). -/
def ColData.isObj : ColData → Bool
  | ColData.obj _ => true
  | ColData.ts _ => true
  | _ => false

/-- A DataFrame: an ordered list of named columns. -/
structure Table where
  cols : List (String × ColData)
deriving DecidableEq, Repr

/-- First column with the given name, if any. -/
def findCol : List (String × ColData) → String → Option ColData
  | [], _ => none
  | p :: t, n => if p.1 = n then some p.2 else findCol t n

/-- `df[n] = c`: overwrite the column named `n` in place (keeping its
position) or append a new column at the end. -/
def setColList : List (String × ColData) → String → ColData → List (String × ColData)
  | [], n, c => [(n, c)]
  | p :: t, n, c => if p.1 = n then (n, c) :: t else p :: setColList t n c

def Table.find? (t : Table) (n : String) : Option ColData :=
  findCol t.cols n

def Table.setCol (t : Table) (n : String) (c : ColData) : Table :=
  ⟨setColList t.cols n c⟩

/-- `df[name]` restricted to the designated timestamp column: `KeyError`
(`schemaError`) when absent; the raw cells when present with the raw
timestamp dtype. -/
def getTsCol (t : Table) (n : String) : Except Err (List RawTS) :=
  match t.find? n with
  | none => Except.error Err.schemaError
  | some (ColData.ts vals) => Except.ok vals
  | some _ => Except.error Err.dtypeError

/-- `pd.to_datetime` over a whole column (default `errors='raise'`):
if any cell holds an unparseable string the call raises; otherwise missing
cells become NaT (`none`) and valid cells their parsed timestamp. -/
def toDatetime (col : List RawTS) : Except Err (List (Option DT)) :=
  if col.any (fun c => match c with | RawTS.invalid _ => true | _ => false) then
    Except.error Err.parseError
  else
    Except.ok (col.map (fun c => match c with | RawTS.valid _ t => some t | _ => none))

/-- Row indices of `df_cdf[df_cdf['dt_trunc'] == cme_time]`: pandas equality
with NaT is elementwise false, so a NaT event key (`none`) matches nothing
and NaT field keys never match. -/
def matchIndices (cdfKeys : List (Option TKey)) (k? : Option TKey) : List Nat :=
  match k? with
  | none => []
  | some k =>
      (List.range cdfKeys.length).filter (fun j => decide (cdfKeys.getD j none = some k))

/-- `matches[col]`: read a column at the selected row indices, in order. -/
def selectAt {α : Type} (vals : List α) (idxs : List Nat) : List α :=
  idxs.filterMap (fun j => vals[j]?)

/-- `Series.mean()`: skip NaN; NaN when every value is NaN. -/
def meanOpt (vals : List (Option ℚ)) : Option ℚ :=
  let vs := vals.filterMap id
  if vs.isEmpty then none else some (vs.sum / (vs.length : ℚ))

/-- Largest occurrence count in a list of strings (0 for the empty list). -/
def maxCount (vs : List String) : Nat :=
  (vs.map (fun v => vs.count v)).foldl max 0

/-- First element of a list sorted ascending, i.e. its minimum
(lexicographic by code point, as Python compares strings). -/
def listMin : List String → Option String
  | [] => none
  | m :: ms => some (ms.foldl (fun a b => if b.data < a.data then b else a) m)

/-- `Series.mode().iloc[0]` when the mode is non-empty, `none` otherwise:
drop NaN, keep the values attaining the maximal count, and take the first of
them in sorted order (their minimum). -/
def modeOpt (vals : List (Option String)) : Option String :=
  let vs := vals.filterMap id
  listMin (vs.filter (fun v => decide (vs.count v = maxCount vs)))

/-- One cell of an output row: a float, a mode string, the raw event
timestamp carried through unchanged, or a missing value (NaN from an
all-missing mean, or Python `None`). -/
inductive Cell where
  | num (q : ℚ)
  | str (s : String)
  | rts (t : RawTS)
  | missing
deriving DecidableEq, Repr

def numCell : Option ℚ → Cell
  | some q => Cell.num q
  | none => Cell.missing

def strCell : Option String → Cell
  | some s => Cell.str s
  | none => Cell.missing

/-- Python dict assignment `d[k] = v` on an insertion-ordered dict with
unique keys: overwrite the first entry named `k` in place, else append. -/
def dictSet : List (String × Cell) → String → Cell → List (String × Cell)
  | [], k, v => [(k, v)]
  | p :: d, k, v => if p.1 = k then (k, v) :: d else p :: dictSet d k v

/-- Dict lookup on an output row. -/
def rowLookup : List (String × Cell) → String → Option Cell
  | [], _ => none
  | p :: d, k => if p.1 = k then some p.2 else rowLookup d k

/-- Values of a numeric column by name (used only at names classified
numeric, where the dtype is `num`). -/
def Table.numValsOf (t : Table) (c : String) : List (Option ℚ) :=
  match t.find? c with
  | some (ColData.num vs) => vs
  | _ => []

/-- Values of an object column by name, as strings. -/
def Table.objValsOf (t : Table) (c : String) : List (Option String) :=
  match t.find? c with
  | some (ColData.obj vs) => vs
  | some (ColData.ts vs) => vs.map RawTS.str?
  | _ => []

/-- `select_dtypes(...).columns.tolist()`: names of the columns satisfying a
dtype predicate, in table order. -/
def selectCols (t : Table) (p : ColData → Bool) : List String :=
  (t.cols.filter (fun q => p q.2)).map Prod.fst

/-- The helper columns removed from the classified lists by name. -/
def helperNames : List String :=
  ["epoch_for_cdf_mod", "datetime", "dt_trunc"]

/-- `num_cols` after the guarded `list.remove` loop. -/
def numColsOf (t : Table) : List String :=
  helperNames.foldl (fun l n => l.erase n) (selectCols t ColData.isNum)

/-- `obj_cols` after the guarded `list.remove` loop. -/
def objColsOf (t : Table) : List String :=
  helperNames.foldl (fun l n => l.erase n) (selectCols t ColData.isObj)

/-- The body of the per-event loop: build one aggregated output row from the
match set of one event (`agg_row` in the source). -/
def aggRowFor (cdf1 : Table) (numCols objCols : List String)
    (cdfKeys : List (Option TKey)) (k? : Option TKey) (t0 : RawTS) :
    List (String × Cell) :=
  let idxs := matchIndices cdfKeys k?
  if idxs.isEmpty then
    dictSet ((numCols ++ objCols).foldl (fun d c => dictSet d c Cell.missing) [])
      "cme_t0" (Cell.rts t0)
  else
    let r1 := numCols.foldl
      (fun d c => dictSet d c (numCell (meanOpt (selectAt (cdf1.numValsOf c) idxs)))) []
    let r2 := objCols.foldl
      (fun d c => dictSet d c (strCell (modeOpt (selectAt (cdf1.objValsOf c) idxs)))) r1
    dictSet r2 "cme_t0" (Cell.rts t0)

/-- The value returned (and the observable state of the two argument tables)
after a successful call: both inputs augmented with the `datetime` and
`dt_trunc` helper columns, and the aggregated output rows. -/
structure ExtractResult where
  cdfOut : Table
  cmeOut : Table
  rows : List (List (String × Cell))
deriving DecidableEq, Repr

/-- `.dt.floor('min')` over a parsed column (NaT stays NaT). -/
def keysOf (dts : List (Option DT)) : List (Option TKey) :=
  dts.map (Option.map DT.floorMin)

/-- The two column assignments performed on each argument table:
`df['datetime'] = pd.to_datetime(...)` and `df['dt_trunc'] = ....floor('min')`. -/
def addHelperCols (t : Table) (dts : List (Option DT)) : Table :=
  (t.setCol "datetime" (ColData.dt dts)).setCol "dt_trunc" (ColData.key (keysOf dts))

/-- The success path of `extract_cme_matching_data` after both timestamp
columns have been fetched and parsed. -/
def buildResult (df_cdf df_cme : Table) (cmeRaw : List RawTS)
    (cdfDts cmeDts : List (Option DT)) : ExtractResult :=
  let cdf1 := addHelperCols df_cdf cdfDts
  let cme1 := addHelperCols df_cme cmeDts
  let rows := (List.range (keysOf cmeDts).length).map (fun i =>
    aggRowFor cdf1 (numColsOf cdf1) (objColsOf cdf1) (keysOf cdfDts)
      ((keysOf cmeDts).getD i none) (cmeRaw.getD i RawTS.missing))
  ⟨cdf1, cme1, rows⟩

/-- `extract_cme_matching_data(df_cdf, df_cme)`: fetch and parse the two
timestamp columns in source order, then run the (total) aggregation loop. -/
def extract_cme_matching_data (df_cdf df_cme : Table) : Except Err ExtractResult :=
  match getTsCol df_cdf "epoch_for_cdf_mod" with
  | Except.error e => Except.error e
  | Except.ok cdfRaw =>
    match toDatetime cdfRaw with
    | Except.error e => Except.error e
    | Except.ok cdfDts =>
      match getTsCol df_cme "t0" with
      | Except.error e => Except.error e
      | Except.ok cmeRaw =>
        match toDatetime cmeRaw with
        | Except.error e => Except.error e
        | Except.ok cmeDts => Except.ok (buildResult df_cdf df_cme cmeRaw cdfDts cmeDts)

/-! ### Spec-side comparison definitions

These follow the wording of the specification (not the source); they exist
to be compared against the behaviour of the translated code. -/

/-- Spec §4.2: for a numeric column, the arithmetic mean of the non-missing
values of the match set; missing (not zero) when every value is missing. -/
def specMean (M : List (Option ℚ)) : Option ℚ :=
  let vs := M.filterMap id
  if vs.length = 0 then none else some (vs.sum / (vs.length : ℚ))

/-- The claimed categorical tie-break: the first value, in order of
appearance in the match set, whose occurrence count among the non-missing
values is maximal. -/
def specModeFirst (M : List (Option String)) : Option String :=
  let vs := M.filterMap id
  vs.find? (fun v => decide (∀ w ∈ vs, vs.count w ≤ vs.count v))

/-- The sorted-order tie-break: the least value (lexicographically) among the
non-missing values whose occurrence count is maximal. -/
def specModeMin (M : List (Option String)) : Option String :=
  let vs := M.filterMap id
  (vs.filter (fun v => decide (∀ w ∈ vs, vs.count w ≤ vs.count v))).min?

/-! ### Concrete tables used as witnesses and counterexamples -/

def ts120307 : DT := ⟨2025, 5, 1, 12, 3, 7, 0⟩

def ts120359 : DT := ⟨2025, 5, 1, 12, 3, 59, 0⟩

def ts120400 : DT := ⟨2025, 5, 1, 12, 4, 0, 0⟩

def tsEvent : DT := ⟨2025, 5, 1, 12, 3, 0, 0⟩

/-- The spec §8 scenario field table: rows at 12:03:07 and 12:03:59, one
numeric column `v` and one categorical column `cat`. -/
def exCdf : Table :=
  ⟨[("epoch_for_cdf_mod", ColData.ts
      [RawTS.valid "2025-05-01 12:03:07" ts120307, RawTS.valid "2025-05-01 12:03:59" ts120359]),
    ("v", ColData.num [some 400, some 420]),
    ("cat", ColData.obj [none, some "halo"])]⟩

/-- One CME event at minute 12:03. -/
def exCme : Table :=
  ⟨[("t0", ColData.ts [RawTS.valid "2025/05/01 12:03" tsEvent])]⟩

/-- Field table whose categorical match values are `"b"` then `"a"`
(a frequency tie in that appearance order). -/
def tieCdf : Table :=
  ⟨[("epoch_for_cdf_mod", ColData.ts
      [RawTS.valid "2025-05-01 12:03:07" ts120307, RawTS.valid "2025-05-01 12:03:59" ts120359]),
    ("cat", ColData.obj [some "b", some "a"])]⟩

/-- Field table with the numeric match values `{10, 20, missing}` and a row
whose timestamp cell is missing. -/
def meanCdf : Table :=
  ⟨[("epoch_for_cdf_mod", ColData.ts
      [RawTS.valid "2025-05-01 12:03:07" ts120307, RawTS.valid "2025-05-01 12:03:59" ts120359,
       RawTS.missing]),
    ("v", ColData.num [some 10, some 20, none]),
    ("w", ColData.num [none, none, some 7])]⟩

/-- Field table containing a timestamp string the parser rejects. -/
def badCdf : Table :=
  ⟨[("epoch_for_cdf_mod", ColData.ts [RawTS.invalid "not-a-date"]),
    ("v", ColData.num [some 1])]⟩

/-- Event table with two events: one at a minute with no field data, one with
a missing `t0` cell. -/
def missCme : Table :=
  ⟨[("t0", ColData.ts [RawTS.valid "2025/05/01 12:04" ts120400, RawTS.missing])]⟩

/-- An event table without the designated `t0` column. -/
def noT0Cme : Table :=
  ⟨[("CME", ColData.obj [some "0001"])]⟩

/-- Field table carrying a boolean column and an extra datetime column,
which are neither numeric nor object dtype. -/
def mixedCdf : Table :=
  ⟨[("epoch_for_cdf_mod", ColData.ts [RawTS.valid "2025-05-01 12:03:07" ts120307]),
    ("flag", ColData.other 1),
    ("seen", ColData.dt [some ts120307]),
    ("v", ColData.num [some 4]),
    ("cat", ColData.obj [some "halo"])]⟩

/-- The `ExtractResult` of the scenario run `extract exCdf exCme`. -/
def exResult : ExtractResult :=
  buildResult exCdf exCme [RawTS.valid "2025/05/01 12:03" tsEvent]
    [some ts120307, some ts120359] [some tsEvent]

/-- The `ExtractResult` of the run `extract exCdf missCme`. -/
def missResult : ExtractResult :=
  buildResult exCdf missCme [RawTS.valid "2025/05/01 12:04" ts120400, RawTS.missing]
    [some ts120307, some ts120359] [some ts120400, none]

/-- The categorical values matched by the 12:03 event against `tieCdf`,
in match (appearance) order. -/
def tieMatches : List (Option String) :=
  selectAt (Table.objValsOf (addHelperCols tieCdf [some ts120307, some ts120359]) "cat")
    (matchIndices (keysOf [some ts120307, some ts120359]) (some ⟨2025, 5, 1, 12, 3⟩))

/-- The `ExtractResult` of the run `extract mixedCdf exCme`. -/
def mixedResult : ExtractResult :=
  buildResult mixedCdf exCme [RawTS.valid "2025/05/01 12:03" tsEvent]
    [some ts120307] [some tsEvent]

/-! ### Basic lemmas about columns and parsing -/

theorem findCol_setColList_self (l : List (String × ColData)) (n : String) (c : ColData) :
    findCol (setColList l n c) n = some c := by
  induction l with
  | nil => simp [setColList, findCol]
  | cons p t ih =>
      by_cases hp : p.1 = n
      · simp [setColList, hp, findCol]
      · simp [setColList, hp, findCol, ih]

theorem findCol_setColList_other (l : List (String × ColData)) (n m : String) (c : ColData)
    (h : m ≠ n) : findCol (setColList l n c) m = findCol l m := by
  have hnm : ¬ n = m := fun hh => h hh.symm
  induction l with
  | nil => simp [setColList, findCol, hnm]
  | cons p t ih =>
      by_cases hp : p.1 = n
      · simp [setColList, hp, findCol, hnm]
      · by_cases hm : p.1 = m
        · simp [setColList, findCol, hm, h, hp]
        · simp [setColList, hp, findCol, hm, ih]

theorem find?_setCol_self (t : Table) (n : String) (c : ColData) :
    (t.setCol n c).find? n = some c :=
  findCol_setColList_self t.cols n c

theorem find?_setCol_other (t : Table) (n m : String) (c : ColData) (h : m ≠ n) :
    (t.setCol n c).find? m = t.find? m :=
  findCol_setColList_other t.cols n m c h

theorem getTsCol_ok_inv {t : Table} {n : String} {vals : List RawTS}
    (h : getTsCol t n = Except.ok vals) : t.find? n = some (ColData.ts vals) := by
  unfold getTsCol at h
  split at h
  · exact absurd h (by simp)
  · next heq => cases h; exact heq
  · exact absurd h (by simp)

theorem getTsCol_of_find? {t : Table} {n : String} {vals : List RawTS}
    (h : t.find? n = some (ColData.ts vals)) : getTsCol t n = Except.ok vals := by
  unfold getTsCol
  rw [h]

theorem getTsCol_none {t : Table} {n : String} (h : t.find? n = none) :
    getTsCol t n = Except.error Err.schemaError := by
  unfold getTsCol
  rw [h]

theorem toDatetime_ok_length {col : List RawTS} {dts : List (Option DT)}
    (h : toDatetime col = Except.ok dts) : dts.length = col.length := by
  unfold toDatetime at h
  split at h
  · exact absurd h (by simp)
  · cases h; simp

theorem toDatetime_ok_map {col : List RawTS} {dts : List (Option DT)}
    (h : toDatetime col = Except.ok dts) :
    dts = col.map (fun c => match c with | RawTS.valid _ t => some t | _ => none) := by
  unfold toDatetime at h
  split at h
  · exact absurd h (by simp)
  · cases h; rfl

theorem toDatetime_invalid {col : List RawTS} {s : String}
    (h : RawTS.invalid s ∈ col) : toDatetime col = Except.error Err.parseError := by
  unfold toDatetime
  rw [if_pos]
  exact List.any_eq_true.mpr ⟨RawTS.invalid s, h, rfl⟩

theorem toDatetime_missing_getD {col : List RawTS} {dts : List (Option DT)} {j : Nat}
    (h : toDatetime col = Except.ok dts) (hj : col.getD j RawTS.missing = RawTS.missing) :
    dts.getD j none = none := by
  rw [toDatetime_ok_map h]
  rcases Nat.lt_or_ge j col.length with hlt | hge
  · have hmap : j < (col.map (fun c =>
        match c with | RawTS.valid _ t => some t | _ => none)).length := by
      simpa using hlt
    rw [List.getD_eq_getElem _ _ hmap, List.getElem_map]
    have hcol : col[j] = RawTS.missing := by
      rwa [List.getD_eq_getElem _ _ hlt] at hj
    rw [hcol]
  · rw [List.getD_eq_default]
    simpa using hge

/-- Successful calls factor through `buildResult`, with both timestamp
columns fetched and parsed in source order. -/
theorem extract_ok_inv {a b : Table} {r : ExtractResult}
    (h : extract_cme_matching_data a b = Except.ok r) :
    ∃ cdfRaw cdfDts cmeRaw cmeDts,
      getTsCol a "epoch_for_cdf_mod" = Except.ok cdfRaw ∧
      toDatetime cdfRaw = Except.ok cdfDts ∧
      getTsCol b "t0" = Except.ok cmeRaw ∧
      toDatetime cmeRaw = Except.ok cmeDts ∧
      r = buildResult a b cmeRaw cdfDts cmeDts := by
  unfold extract_cme_matching_data at h
  split at h
  · exact absurd h (by simp)
  · next cdfRaw h1 =>
      split at h
      · exact absurd h (by simp)
      · next cdfDts h2 =>
          split at h
          · exact absurd h (by simp)
          · next cmeRaw h3 =>
              split at h
              · exact absurd h (by simp)
              · next cmeDts h4 =>
                  cases h
                  exact ⟨cdfRaw, cdfDts, cmeRaw, cmeDts, h1, h2, h3, h4, rfl⟩

/-! ### Lemmas about dict rows and the aggregation folds -/

theorem rowLookup_dictSet_self (d : List (String × Cell)) (k : String) (v : Cell) :
    rowLookup (dictSet d k v) k = some v := by
  induction d with
  | nil => simp [dictSet, rowLookup]
  | cons p t ih =>
      by_cases hp : p.1 = k
      · simp [dictSet, hp, rowLookup]
      · simp [dictSet, hp, rowLookup, ih]

theorem rowLookup_dictSet_other (d : List (String × Cell)) (k m : String) (v : Cell)
    (h : m ≠ k) : rowLookup (dictSet d k v) m = rowLookup d m := by
  have hkm : ¬ k = m := fun hh => h hh.symm
  induction d with
  | nil => simp [dictSet, rowLookup, hkm]
  | cons p t ih =>
      by_cases hp : p.1 = k
      · simp [dictSet, hp, rowLookup, hkm]
      · by_cases hm : p.1 = m
        · simp [dictSet, findCol, hm, h, hp, rowLookup]
        · simp [dictSet, hp, rowLookup, hm, ih]

theorem mem_dictSet {d : List (String × Cell)} {k : String} {v : Cell} {p : String × Cell}
    (h : p ∈ dictSet d k v) : p ∈ d ∨ p = (k, v) := by
  induction d with
  | nil => exact Or.inr (by simpa [dictSet] using h)
  | cons q t ih =>
      by_cases hq : q.1 = k
      · simp [dictSet, hq] at h
        rcases h with h | h
        · exact Or.inr (by simp [h])
        · exact Or.inl (List.mem_cons_of_mem _ h)
      · simp [dictSet, hq] at h
        rcases h with h | h
        · exact Or.inl (by simp [h])
        · rcases ih h with h1 | h1
          · exact Or.inl (List.mem_cons_of_mem _ h1)
          · exact Or.inr h1

theorem names_dictSet_fresh (d : List (String × Cell)) (k : String) (v : Cell)
    (h : k ∉ d.map Prod.fst) : (dictSet d k v).map Prod.fst = d.map Prod.fst ++ [k] := by
  induction d with
  | nil => simp [dictSet]
  | cons p t ih =>
      simp only [List.map_cons, List.mem_cons] at h
      push_neg at h
      have hp : ¬ p.1 = k := fun hh => h.1 hh.symm
      simp [dictSet, hp, ih h.2]

/-- Entries produced by one aggregation fold: everything is either from the
seed dict or a `(k, f k)` pair for some processed column `k`. -/
theorem mem_foldl_dictSet {ks : List String} {f : String → Cell}
    {d : List (String × Cell)} {p : String × Cell}
    (h : p ∈ ks.foldl (fun d k => dictSet d k (f k)) d) :
    p ∈ d ∨ ∃ k ∈ ks, p = (k, f k) := by
  induction ks generalizing d with
  | nil => exact Or.inl h
  | cons k t ih =>
      rcases ih (by simpa using h) with h1 | h1
      · rcases mem_dictSet h1 with h2 | h2
        · exact Or.inl h2
        · exact Or.inr ⟨k, by simp, h2⟩
      · rcases h1 with ⟨k1, hk1, hp1⟩
        exact Or.inr ⟨k1, by simp [hk1], hp1⟩

theorem rowLookup_foldl_not_mem {ks : List String} {f : String → Cell}
    {d : List (String × Cell)} {c : String} (h : c ∉ ks) :
    rowLookup (ks.foldl (fun d k => dictSet d k (f k)) d) c = rowLookup d c := by
  induction ks generalizing d with
  | nil => rfl
  | cons k t ih =>
      simp only [List.mem_cons] at h
      push_neg at h
      rw [List.foldl_cons, ih h.2, rowLookup_dictSet_other _ _ _ _ h.1]

theorem rowLookup_foldl_mem {ks : List String} {f : String → Cell}
    {d : List (String × Cell)} {c : String} (hnd : ks.Nodup) (h : c ∈ ks) :
    rowLookup (ks.foldl (fun d k => dictSet d k (f k)) d) c = some (f c) := by
  induction ks generalizing d with
  | nil => cases h
  | cons k t ih =>
      rcases List.mem_cons.mp h with h1 | h1
      · subst h1
        have hct : c ∉ t := (List.nodup_cons.mp hnd).1
        rw [List.foldl_cons, rowLookup_foldl_not_mem hct, rowLookup_dictSet_self]
      · exact List.foldl_cons _ _ ▸ ih (List.nodup_cons.mp hnd).2 h1

theorem names_foldl_dictSet {ks : List String} {f : String → Cell} :
    ∀ {d : List (String × Cell)}, (d.map Prod.fst ++ ks).Nodup →
    (ks.foldl (fun d k => dictSet d k (f k)) d).map Prod.fst = d.map Prod.fst ++ ks := by
  induction ks with
  | nil => intro d _; simp
  | cons k t ih =>
      intro d hnd
      have hk : k ∉ d.map Prod.fst := by
        intro hmem
        rcases List.nodup_append.mp hnd with ⟨_, _, hdisj⟩
        exact hdisj hmem (by simp)
      rw [List.foldl_cons]
      have hstep : (dictSet d k (f k)).map Prod.fst = d.map Prod.fst ++ [k] :=
        names_dictSet_fresh d k (f k) hk
      have hnd2 : ((dictSet d k (f k)).map Prod.fst ++ t).Nodup := by
        rw [hstep, List.append_assoc]
        simpa using hnd
      rw [ih hnd2, hstep, List.append_assoc]
      rfl

/-! ### Lemmas about the normalized tables and the per-event rows -/

theorem keysOf_length (dts : List (Option DT)) : (keysOf dts).length = dts.length := by
  simp [keysOf]

theorem find?_addHelper_dtTrunc (t : Table) (dts : List (Option DT)) :
    (addHelperCols t dts).find? "dt_trunc" = some (ColData.key (keysOf dts)) :=
  find?_setCol_self _ _ _

theorem find?_addHelper_datetime (t : Table) (dts : List (Option DT)) :
    (addHelperCols t dts).find? "datetime" = some (ColData.dt dts) := by
  unfold addHelperCols
  rw [find?_setCol_other _ _ _ _ (by decide), find?_setCol_self]

theorem find?_addHelper_other (t : Table) (dts : List (Option DT)) (n : String)
    (h1 : n ≠ "datetime") (h2 : n ≠ "dt_trunc") :
    (addHelperCols t dts).find? n = t.find? n := by
  unfold addHelperCols
  rw [find?_setCol_other _ _ _ _ h2, find?_setCol_other _ _ _ _ h1]

theorem buildResult_cdfOut (a b : Table) (cmeRaw : List RawTS)
    (cdfDts cmeDts : List (Option DT)) :
    (buildResult a b cmeRaw cdfDts cmeDts).cdfOut = addHelperCols a cdfDts := rfl

theorem buildResult_cmeOut (a b : Table) (cmeRaw : List RawTS)
    (cdfDts cmeDts : List (Option DT)) :
    (buildResult a b cmeRaw cdfDts cmeDts).cmeOut = addHelperCols b cmeDts := rfl

theorem buildResult_rows_length (a b : Table) (cmeRaw : List RawTS)
    (cdfDts cmeDts : List (Option DT)) :
    (buildResult a b cmeRaw cdfDts cmeDts).rows.length = cmeDts.length := by
  simp [buildResult, keysOf]

theorem buildResult_rows_getD {a b : Table} {cmeRaw : List RawTS}
    {cdfDts cmeDts : List (Option DT)} {i : Nat} (hi : i < cmeDts.length) :
    (buildResult a b cmeRaw cdfDts cmeDts).rows.getD i [] =
      aggRowFor (addHelperCols a cdfDts)
        (numColsOf (addHelperCols a cdfDts)) (objColsOf (addHelperCols a cdfDts))
        (keysOf cdfDts) ((keysOf cmeDts).getD i none) (cmeRaw.getD i RawTS.missing) := by
  have hlen : i < ((List.range (keysOf cmeDts).length).map (fun i =>
      aggRowFor (addHelperCols a cdfDts)
        (numColsOf (addHelperCols a cdfDts)) (objColsOf (addHelperCols a cdfDts))
        (keysOf cdfDts) ((keysOf cmeDts).getD i none) (cmeRaw.getD i RawTS.missing))).length := by
    simpa [keysOf] using hi
  show ((List.range (keysOf cmeDts).length).map _).getD i [] = _
  rw [List.getD_eq_getElem _ _ hlen, List.getElem_map, List.getElem_range]

/-- The last assignment of both branches: the `cme_t0` cell always holds the
event's raw `t0` value. -/
theorem aggRowFor_lookup_t0 (cdf1 : Table) (numCols objCols : List String)
    (cdfKeys : List (Option TKey)) (k? : Option TKey) (t0 : RawTS) :
    rowLookup (aggRowFor cdf1 numCols objCols cdfKeys k? t0) "cme_t0" =
      some (Cell.rts t0) := by
  by_cases h : (matchIndices cdfKeys k?).isEmpty = true
  · unfold aggRowFor
    rw [if_pos h]
    exact rowLookup_dictSet_self _ _ _
  · unfold aggRowFor
    rw [if_neg h]
    exact rowLookup_dictSet_self _ _ _

/-- In the no-match branch, every cell except `cme_t0` is missing. -/
theorem aggRowFor_empty_missing {cdf1 : Table} {numCols objCols : List String}
    {cdfKeys : List (Option TKey)} {k? : Option TKey} {t0 : RawTS}
    (h : matchIndices cdfKeys k? = [])
    {p : String × Cell} (hp : p ∈ aggRowFor cdf1 numCols objCols cdfKeys k? t0)
    (hne : p.1 ≠ "cme_t0") : p.2 = Cell.missing := by
  unfold aggRowFor at hp
  rw [h] at hp
  simp only [List.isEmpty_nil, if_true] at hp
  rcases mem_dictSet hp with h1 | h1
  · rcases mem_foldl_dictSet h1 with h2 | h2
    · cases h2
    · rcases h2 with ⟨k, _, hk⟩
      simp [hk]
  · exact absurd (by simp [h1]) hne

/-- In the match branch, the cell of a numeric column is the NaN-skipping
mean of that column over the match set. -/
theorem aggRowFor_lookup_num {cdf1 : Table} {numCols objCols : List String}
    {cdfKeys : List (Option TKey)} {k? : Option TKey} {t0 : RawTS} {c : String}
    (hne : matchIndices cdfKeys k? ≠ [])
    (hmem : c ∈ numCols) (hnd : numCols.Nodup) (hobj : c ∉ objCols)
    (ht0 : c ≠ "cme_t0") :
    rowLookup (aggRowFor cdf1 numCols objCols cdfKeys k? t0) c =
      some (numCell (meanOpt (selectAt (cdf1.numValsOf c) (matchIndices cdfKeys k?)))) := by
  unfold aggRowFor
  rw [if_neg (by simpa using hne)]
  rw [rowLookup_dictSet_other _ _ _ _ ht0, rowLookup_foldl_not_mem hobj,
    rowLookup_foldl_mem hnd hmem]

/-- In the match branch, the cell of a categorical column is the pandas mode
of that column over the match set. -/
theorem aggRowFor_lookup_obj {cdf1 : Table} {numCols objCols : List String}
    {cdfKeys : List (Option TKey)} {k? : Option TKey} {t0 : RawTS} {c : String}
    (hne : matchIndices cdfKeys k? ≠ [])
    (hmem : c ∈ objCols) (hnd : objCols.Nodup) (ht0 : c ≠ "cme_t0") :
    rowLookup (aggRowFor cdf1 numCols objCols cdfKeys k? t0) c =
      some (strCell (modeOpt (selectAt (cdf1.objValsOf c) (matchIndices cdfKeys k?)))) := by
  unfold aggRowFor
  rw [if_neg (by simpa using hne)]
  rw [rowLookup_dictSet_other _ _ _ _ ht0, rowLookup_foldl_mem hnd hmem]

/-- The column names of any output row, in order: numeric columns, then
categorical columns, then `cme_t0`. -/
theorem aggRowFor_names {cdf1 : Table} {numCols objCols : List String}
    {cdfKeys : List (Option TKey)} {k? : Option TKey} {t0 : RawTS}
    (hnd : (numCols ++ objCols).Nodup) (hfresh : "cme_t0" ∉ numCols ++ objCols) :
    (aggRowFor cdf1 numCols objCols cdfKeys k? t0).map Prod.fst =
      numCols ++ objCols ++ ["cme_t0"] := by
  by_cases h : (matchIndices cdfKeys k?).isEmpty = true
  · unfold aggRowFor
    rw [if_pos h]
    have hfold : ((numCols ++ objCols).foldl (fun d c => dictSet d c Cell.missing) []).map
        Prod.fst = numCols ++ objCols :=
      @names_foldl_dictSet (numCols ++ objCols) (fun _ => Cell.missing) [] hnd
    rw [names_dictSet_fresh _ _ _ (by rw [hfold]; exact hfresh), hfold]
  · unfold aggRowFor
    rw [if_neg h]
    have hndnum : numCols.Nodup := (List.nodup_append.mp hnd).1
    have hndobj : objCols.Nodup := (List.nodup_append.mp hnd).2.1
    have h1 : (numCols.foldl (fun d c =>
        dictSet d c (numCell (meanOpt (selectAt (cdf1.numValsOf c)
          (matchIndices cdfKeys k?))))) []).map Prod.fst = numCols := by
      simpa using @names_foldl_dictSet numCols
        (fun c => numCell (meanOpt (selectAt (cdf1.numValsOf c) (matchIndices cdfKeys k?))))
        [] (by simpa using hndnum)
    have h2 : ((objCols.foldl (fun d c =>
        dictSet d c (strCell (modeOpt (selectAt (cdf1.objValsOf c)
          (matchIndices cdfKeys k?)))))
        (numCols.foldl (fun d c =>
          dictSet d c (numCell (meanOpt (selectAt (cdf1.numValsOf c)
            (matchIndices cdfKeys k?))))) [])).map Prod.fst) = numCols ++ objCols := by
      rw [names_foldl_dictSet (by rw [h1]; exact hnd)]
      rw [h1]
    rw [names_dictSet_fresh _ _ _ (by rw [h2]; exact hfresh), h2]

/-! ### Lemmas about the numeric mean and the categorical mode -/

theorem meanOpt_eq_specMean (vals : List (Option ℚ)) : meanOpt vals = specMean vals := by
  by_cases h : vals.filterMap id = []
  · simp [meanOpt, specMean, h]
  · simp [meanOpt, specMean, List.isEmpty_iff, List.length_eq_zero, h]

theorem specMean_all_missing {vals : List (Option ℚ)} (h : vals.filterMap id = []) :
    specMean vals = none := by
  simp [specMean, h]

theorem specMean_some {vals : List (Option ℚ)} (h : vals.filterMap id ≠ []) :
    specMean vals =
      some ((vals.filterMap id).sum / ((vals.filterMap id).length : ℚ)) := by
  simp [specMean, List.length_eq_zero, h]

theorem foldl_max_init (l : List Nat) (b : Nat) : b ≤ l.foldl max b := by
  induction l generalizing b with
  | nil => exact Nat.le_refl b
  | cons a t ih => exact Nat.le_trans (Nat.le_max_left b a) (ih (max b a))

theorem foldl_max_le_of_mem : ∀ {l : List Nat} {a : Nat}, a ∈ l → ∀ b : Nat,
    a ≤ l.foldl max b := by
  intro l
  induction l with
  | nil => intro a h; cases h
  | cons x t ih =>
      intro a h b
      rw [List.foldl_cons]
      rcases List.mem_cons.mp h with h1 | h1
      · subst h1
        exact Nat.le_trans (Nat.le_max_right b a) (foldl_max_init t (max b a))
      · exact ih h1 (max b x)

theorem foldl_max_eq_or_mem : ∀ (l : List Nat) (b : Nat),
    l.foldl max b = b ∨ l.foldl max b ∈ l := by
  intro l
  induction l with
  | nil => intro b; exact Or.inl rfl
  | cons a t ih =>
      intro b
      rw [List.foldl_cons]
      rcases ih (max b a) with h1 | h1
      · rcases max_choice b a with h2 | h2
        · exact Or.inl (by rw [h1, h2])
        · exact Or.inr (by rw [h1, h2]; simp)
      · exact Or.inr (List.mem_cons_of_mem _ h1)

theorem count_le_maxCount {vs : List String} {v : String} (h : v ∈ vs) :
    vs.count v ≤ maxCount vs := by
  exact foldl_max_le_of_mem (List.mem_map_of_mem (fun v => vs.count v) h) 0

theorem maxCount_attained {vs : List String} (h : vs ≠ []) :
    ∃ v ∈ vs, vs.count v = maxCount vs := by
  rcases foldl_max_eq_or_mem (vs.map (fun v => vs.count v)) 0 with h1 | h1
  · rcases List.exists_mem_of_ne_nil vs h with ⟨v, hv⟩
    refine ⟨v, hv, ?_⟩
    have hle : vs.count v ≤ maxCount vs := count_le_maxCount hv
    have hpos : 0 < vs.count v := List.count_pos_iff.mpr hv
    have h0 : maxCount vs = 0 := h1
    omega
  · rcases List.mem_map.mp h1 with ⟨v, hv, hcv⟩
    exact ⟨v, hv, hcv⟩

theorem count_eq_maxCount_iff {vs : List String} {v : String} (hv : v ∈ vs) :
    vs.count v = maxCount vs ↔ ∀ w ∈ vs, vs.count w ≤ vs.count v := by
  constructor
  · intro h w hw
    exact h ▸ count_le_maxCount hw
  · intro h
    rcases maxCount_attained (List.ne_nil_of_mem hv) with ⟨u, hu, hcu⟩
    exact Nat.le_antisymm (count_le_maxCount hv) (hcu ▸ h u hu)

theorem minFun_eq_min :
    (fun (a b : String) => if b.data < a.data then b else a) = min := by
  funext a b
  by_cases h : b.data < a.data
  · have hlt : b < a := String.lt_iff_toList_lt.mpr h
    rw [if_pos h, min_def, if_neg (not_le.mpr hlt)]
  · have hle : a ≤ b := not_lt.mp (fun hc => h (String.lt_iff_toList_lt.mp hc))
    rw [if_neg h, min_def, if_pos hle]

theorem listMin_eq_min? (l : List String) : listMin l = l.min? := by
  cases l with
  | nil => rfl
  | cons m ms =>
      show some (ms.foldl (fun a b => if b.data < a.data then b else a) m) = List.min? (m :: ms)
      rw [minFun_eq_min]
      rfl

theorem foldl_min_mem : ∀ (t : List String) (a : String),
    t.foldl (fun a b => if b.data < a.data then b else a) a ∈ a :: t := by
  intro t
  induction t with
  | nil => intro a; exact List.mem_cons_self a []
  | cons b t2 ih =>
      intro a
      rw [List.foldl_cons]
      rcases List.mem_cons.mp (ih (if b.data < a.data then b else a)) with h1 | h1
      · rw [h1]
        by_cases hb : b.data < a.data
        · rw [if_pos hb]
          exact List.mem_cons_of_mem _ (List.mem_cons_self _ _)
        · rw [if_neg hb]
          exact List.mem_cons_self _ _
      · exact List.mem_cons_of_mem _ (List.mem_cons_of_mem _ h1)

theorem foldl_min_le : ∀ (t : List String) (a w : String), w ∈ a :: t →
    t.foldl (fun a b => if b.data < a.data then b else a) a ≤ w := by
  intro t
  induction t with
  | nil =>
      intro a w hw
      rcases List.mem_cons.mp hw with h1 | h1
      · subst h1; exact le_refl w
      · cases h1
  | cons b t2 ih =>
      intro a w hw
      rw [List.foldl_cons]
      have hstepa : (if b.data < a.data then b else a) ≤ a := by
        by_cases hb : b.data < a.data
        · rw [if_pos hb]; exact le_of_lt (String.lt_iff_toList_lt.mpr hb)
        · rw [if_neg hb]
      have hstepb : (if b.data < a.data then b else a) ≤ b := by
        by_cases hb : b.data < a.data
        · rw [if_pos hb]
        · rw [if_neg hb]
          exact not_lt.mp (fun hc => hb (String.lt_iff_toList_lt.mp hc))
      rcases List.mem_cons.mp hw with h1 | h1
      · subst h1
        exact le_trans (ih _ _ (List.mem_cons_self _ _)) hstepa
      · rcases List.mem_cons.mp h1 with h2 | h2
        · subst h2
          exact le_trans (ih _ _ (List.mem_cons_self _ _)) hstepb
        · exact ih _ _ (List.mem_cons_of_mem _ h2)

theorem listMin_mem : ∀ {l : List String} {v : String}, listMin l = some v → v ∈ l := by
  intro l v h
  cases l with
  | nil => cases h
  | cons m ms =>
      cases h
      exact foldl_min_mem ms m

theorem listMin_le : ∀ {l : List String} {v : String}, listMin l = some v →
    ∀ w ∈ l, v ≤ w := by
  intro l v h
  cases l with
  | nil => cases h
  | cons m ms =>
      cases h
      exact foldl_min_le ms m

theorem listMin_isSome {l : List String} (h : l ≠ []) : ∃ v, listMin l = some v := by
  cases l with
  | nil => exact absurd rfl h
  | cons m ms => exact ⟨_, rfl⟩

/-- The two mode filters coincide: counting up to the maximum is the same as
being counted at least as often as every element. -/
theorem modeOpt_eq_specModeMin (vals : List (Option String)) :
    modeOpt vals = specModeMin vals := by
  unfold modeOpt specModeMin
  rw [listMin_eq_min?]
  congr 1
  apply List.filter_congr
  intro v hv
  simp only [decide_eq_decide]
  exact count_eq_maxCount_iff hv

theorem modeOpt_all_missing {vals : List (Option String)} (h : vals.filterMap id = []) :
    modeOpt vals = none := by
  simp [modeOpt, h, listMin]

theorem modeOpt_isSome {vals : List (Option String)} (h : vals.filterMap id ≠ []) :
    ∃ v, modeOpt vals = some v := by
  unfold modeOpt
  apply listMin_isSome
  intro hfil
  rcases maxCount_attained h with ⟨v, hv, hcv⟩
  have : v ∈ (vals.filterMap id).filter
      (fun v => decide ((vals.filterMap id).count v = maxCount (vals.filterMap id))) :=
    List.mem_filter.mpr ⟨hv, by simpa using hcv⟩
  rw [hfil] at this
  cases this

/-- What the emitted mode value is: a non-missing match value of maximal
occurrence count, least in sorted order among those. -/
theorem modeOpt_spec {vals : List (Option String)} {v : String}
    (h : modeOpt vals = some v) :
    v ∈ vals.filterMap id ∧
      (∀ w ∈ vals.filterMap id,
        (vals.filterMap id).count w ≤ (vals.filterMap id).count v) ∧
      (∀ w ∈ vals.filterMap id,
        (vals.filterMap id).count w = (vals.filterMap id).count v → v ≤ w) := by
  unfold modeOpt at h
  have hmem := listMin_mem h
  have hle := listMin_le h
  rcases List.mem_filter.mp hmem with ⟨hv, hcv⟩
  have hcv2 : (vals.filterMap id).count v = maxCount (vals.filterMap id) := by
    simpa using hcv
  refine ⟨hv, ?_, ?_⟩
  · intro w hw
    exact hcv2 ▸ count_le_maxCount hw
  · intro w hw hcw
    exact hle w (List.mem_filter.mpr ⟨hw, by simp [hcw, hcv2]⟩)

/-! ### Lemmas about the matching step -/

theorem matchIndices_none (ks : List (Option TKey)) : matchIndices ks none = [] := rfl

theorem mem_matchIndices {ks : List (Option TKey)} {k? : Option TKey} {j : Nat}
    (h : j ∈ matchIndices ks k?) : ∃ k, k? = some k ∧ ks.getD j none = some k := by
  cases k? with
  | none => cases h
  | some k =>
      refine ⟨k, rfl, ?_⟩
      have := List.mem_filter.mp h
      simpa using this.2

theorem not_mem_matchIndices_of_sentinel {ks : List (Option TKey)} {j : Nat}
    (h : ks.getD j none = none) (k? : Option TKey) : j ∉ matchIndices ks k? := by
  intro hmem
  rcases mem_matchIndices hmem with ⟨k, _, hk⟩
  rw [h] at hk
  cases hk

/-! ### The claims -/

/-- C4: the truncated-timestamp-key computation assigns two timestamps the
same key iff they agree on year, month, day, hour and minute; in particular
2025-05-01 12:03:07 and 12:03:59 share a key while 12:04:00 does not. -/
theorem floorMin_key_iff :
    (∀ t1 t2 : DT, DT.floorMin t1 = DT.floorMin t2 ↔
      (t1.year = t2.year ∧ t1.month = t2.month ∧ t1.day = t2.day ∧
        t1.hour = t2.hour ∧ t1.minute = t2.minute)) ∧
    DT.floorMin ts120307 = DT.floorMin ts120359 ∧
    DT.floorMin ts120307 ≠ DT.floorMin ts120400 := by
  refine ⟨?_, by decide, by decide⟩
  intro t1 t2
  simp [DT.floorMin, TKey.mk.injEq]

/-- C1: a successful call returns one output row per event row, in input
order: the row count equals the event count and the `i`-th output row's
`cme_t0` cell holds the `i`-th event's raw `t0` value. -/
theorem extract_row_count_and_order {df_cdf df_cme : Table} {r : ExtractResult}
    {cmeRaw : List RawTS}
    (hok : extract_cme_matching_data df_cdf df_cme = Except.ok r)
    (ht0 : df_cme.find? "t0" = some (ColData.ts cmeRaw)) :
    r.rows.length = cmeRaw.length ∧
      ∀ i, i < cmeRaw.length →
        rowLookup (r.rows.getD i []) "cme_t0" =
          some (Cell.rts (cmeRaw.getD i RawTS.missing)) := by
  rcases extract_ok_inv hok with ⟨cdfRaw, cdfDts, cmeRaw2, cmeDts, _, _, h3, h4, hr⟩
  have hraw : cmeRaw2 = cmeRaw := by
    have h5 := getTsCol_ok_inv h3
    rw [ht0] at h5
    exact (ColData.ts.inj (Option.some.inj h5)).symm
  rw [hraw] at h4 hr
  subst hr
  have hlen : cmeDts.length = cmeRaw.length := toDatetime_ok_length h4
  constructor
  · rw [buildResult_rows_length]
    exact hlen
  · intro i hi
    have hi2 : i < cmeDts.length := by rw [hlen]; exact hi
    rw [buildResult_rows_getD hi2]
    exact aggRowFor_lookup_t0 _ _ _ _ _ _

/-- C1 witness: on the concrete scenario tables the single output row
carries the event's raw `t0`. -/
theorem extract_row_count_and_order_witness :
    rowLookup (exResult.rows.getD 0 []) "cme_t0" =
      some (Cell.rts (([RawTS.valid "2025/05/01 12:03" tsEvent]).getD 0 RawTS.missing)) :=
  (@extract_row_count_and_order exCdf exCme exResult
    [RawTS.valid "2025/05/01 12:03" tsEvent] rfl (by decide)).2 0 (by decide)

/-- C5: an event whose truncated key matches no field-data row still gets an
output row in which every summary cell (everything except `cme_t0`) is
missing, and the `cme_t0` cell is present. -/
theorem extract_empty_match_missing {df_cdf df_cme : Table} {r : ExtractResult}
    {cdfKeys cmeKeys : List (Option TKey)} {i : Nat}
    (hok : extract_cme_matching_data df_cdf df_cme = Except.ok r)
    (hk1 : r.cdfOut.find? "dt_trunc" = some (ColData.key cdfKeys))
    (hk2 : r.cmeOut.find? "dt_trunc" = some (ColData.key cmeKeys))
    (hi : i < r.rows.length)
    (hempty : matchIndices cdfKeys (cmeKeys.getD i none) = []) :
    ((r.rows.getD i []).all fun p => p.1 == "cme_t0" || p.2 == Cell.missing) = true ∧
      rowLookup (r.rows.getD i []) "cme_t0" ≠ none := by
  rcases extract_ok_inv hok with ⟨cdfRaw, cdfDts, cmeRaw, cmeDts, _, _, _, _, hr⟩
  subst hr
  have hck : cdfKeys = keysOf cdfDts := by
    rw [buildResult_cdfOut, find?_addHelper_dtTrunc] at hk1
    exact (ColData.key.inj (Option.some.inj hk1)).symm
  have hmk : cmeKeys = keysOf cmeDts := by
    rw [buildResult_cmeOut, find?_addHelper_dtTrunc] at hk2
    exact (ColData.key.inj (Option.some.inj hk2)).symm
  have hi2 : i < cmeDts.length := by
    rw [buildResult_rows_length] at hi
    exact hi
  rw [buildResult_rows_getD hi2]
  subst hck
  subst hmk
  constructor
  · rw [List.all_eq_true]
    intro p hp
    by_cases hpt : p.1 = "cme_t0"
    · simp [hpt]
    · have := aggRowFor_empty_missing hempty hp hpt
      simp [this]
  · rw [aggRowFor_lookup_t0]
    simp

/-- C5 witness: the concrete event at 12:04 matches nothing, and its output
row is all-missing except `cme_t0`. -/
theorem extract_empty_match_missing_witness :
    ((missResult.rows.getD 0 []).all fun p => p.1 == "cme_t0" || p.2 == Cell.missing)
        = true ∧
      rowLookup (missResult.rows.getD 0 []) "cme_t0" ≠ none :=
  @extract_empty_match_missing exCdf missCme missResult
    [some ⟨2025, 5, 1, 12, 3⟩, some ⟨2025, 5, 1, 12, 3⟩] [some ⟨2025, 5, 1, 12, 4⟩, none] 0
    rfl (by decide) (by decide) (by decide) (by decide)

/-- C2: for an event with a non-empty match set, the emitted value of a
numeric column is the arithmetic mean of the non-missing matched values,
and is missing (not a number, in particular not zero) when all matched
values are missing. -/
theorem extract_numeric_mean {df_cdf df_cme : Table} {r : ExtractResult}
    {cdfKeys cmeKeys : List (Option TKey)} {i : Nat} {c : String} {vs : List (Option ℚ)}
    (hok : extract_cme_matching_data df_cdf df_cme = Except.ok r)
    (hk1 : r.cdfOut.find? "dt_trunc" = some (ColData.key cdfKeys))
    (hk2 : r.cmeOut.find? "dt_trunc" = some (ColData.key cmeKeys))
    (hi : i < r.rows.length)
    (hne : matchIndices cdfKeys (cmeKeys.getD i none) ≠ [])
    (hvals : r.cdfOut.find? c = some (ColData.num vs))
    (hmem : c ∈ numColsOf r.cdfOut)
    (hnd : (numColsOf r.cdfOut ++ objColsOf r.cdfOut).Nodup)
    (ht0c : c ≠ "cme_t0") :
    rowLookup (r.rows.getD i []) c =
      some (numCell (specMean (selectAt vs (matchIndices cdfKeys (cmeKeys.getD i none))))) ∧
    ((selectAt vs (matchIndices cdfKeys (cmeKeys.getD i none))).filterMap id = [] →
      rowLookup (r.rows.getD i []) c = some Cell.missing) := by
  rcases extract_ok_inv hok with ⟨cdfRaw, cdfDts, cmeRaw, cmeDts, _, _, _, _, hr⟩
  subst hr
  have hck : cdfKeys = keysOf cdfDts := by
    rw [buildResult_cdfOut, find?_addHelper_dtTrunc] at hk1
    exact (ColData.key.inj (Option.some.inj hk1)).symm
  have hmk : cmeKeys = keysOf cmeDts := by
    rw [buildResult_cmeOut, find?_addHelper_dtTrunc] at hk2
    exact (ColData.key.inj (Option.some.inj hk2)).symm
  have hi2 : i < cmeDts.length := by
    rw [buildResult_rows_length] at hi
    exact hi
  rw [buildResult_cdfOut] at hvals hmem hnd
  subst hck
  subst hmk
  rw [buildResult_rows_getD hi2]
  have hndnum : (numColsOf (addHelperCols df_cdf cdfDts)).Nodup :=
    (List.nodup_append.mp hnd).1
  have hdisj : c ∉ objColsOf (addHelperCols df_cdf cdfDts) :=
    fun hco => (List.nodup_append.mp hnd).2.2 hmem hco
  have hlook := @aggRowFor_lookup_num (addHelperCols df_cdf cdfDts)
    (numColsOf (addHelperCols df_cdf cdfDts)) (objColsOf (addHelperCols df_cdf cdfDts))
    (keysOf cdfDts) ((keysOf cmeDts).getD i none) (cmeRaw.getD i RawTS.missing) c
    hne hmem hndnum hdisj ht0c
  have hvs : (addHelperCols df_cdf cdfDts).numValsOf c = vs := by
    unfold Table.numValsOf
    rw [hvals]
  rw [hvs, meanOpt_eq_specMean] at hlook
  refine ⟨hlook, fun hall => ?_⟩
  rw [hlook, specMean_all_missing hall]
  rfl

/-- C2 witness: the scenario event matches the numeric values 400 and 420
and the emitted cell is their mean. -/
theorem extract_numeric_mean_witness :
    rowLookup (exResult.rows.getD 0 []) "v" =
      some (numCell (specMean (selectAt [some 400, some 420]
        (matchIndices [some ⟨2025, 5, 1, 12, 3⟩, some ⟨2025, 5, 1, 12, 3⟩]
          (([some ⟨2025, 5, 1, 12, 3⟩] : List (Option TKey)).getD 0 none))))) :=
  (@extract_numeric_mean exCdf exCme exResult
    [some ⟨2025, 5, 1, 12, 3⟩, some ⟨2025, 5, 1, 12, 3⟩] [some ⟨2025, 5, 1, 12, 3⟩]
    0 "v" [some 400, some 420]
    rfl (by decide) (by decide) (by decide) (by decide) (by decide) (by decide)
    (by decide) (by decide)).1

/-- C3 counterexample: pandas `mode().iloc[0]` returns the modal values in
sorted order, not in first-appearance order.  The 12:03 event matches the
categorical values `"b"` then `"a"` (a frequency tie); the code emits `"a"`
while the claimed first-appearance tie-break yields `"b"`. -/
theorem mode_first_appearance_counterexample :
    tieMatches = [some "b", some "a"] ∧
    (extract_cme_matching_data tieCdf exCme).toOption.map
        (fun r => rowLookup (r.rows.getD 0 []) "cat") =
      some (some (Cell.str "a")) ∧
    specModeFirst tieMatches = some "b" ∧
    Cell.str "a" ≠ Cell.str "b" :=
  ⟨rfl, by decide, by decide, by decide⟩

/-- C3 amended: for an event with a non-empty match set, the emitted value
of a categorical column is the most frequent non-missing matched value,
ties broken by taking the least value in sorted order (as pandas
`mode().iloc[0]` does); missing when all matched values are missing. -/
theorem extract_categorical_mode_sorted {df_cdf df_cme : Table} {r : ExtractResult}
    {cdfKeys cmeKeys : List (Option TKey)} {i : Nat} {c : String}
    {vs : List (Option String)}
    (hok : extract_cme_matching_data df_cdf df_cme = Except.ok r)
    (hk1 : r.cdfOut.find? "dt_trunc" = some (ColData.key cdfKeys))
    (hk2 : r.cmeOut.find? "dt_trunc" = some (ColData.key cmeKeys))
    (hi : i < r.rows.length)
    (hne : matchIndices cdfKeys (cmeKeys.getD i none) ≠ [])
    (hvals : r.cdfOut.find? c = some (ColData.obj vs))
    (hmem : c ∈ objColsOf r.cdfOut)
    (hnd : (numColsOf r.cdfOut ++ objColsOf r.cdfOut).Nodup)
    (ht0c : c ≠ "cme_t0") :
    rowLookup (r.rows.getD i []) c =
      some (strCell (specModeMin
        (selectAt vs (matchIndices cdfKeys (cmeKeys.getD i none))))) ∧
    ((selectAt vs (matchIndices cdfKeys (cmeKeys.getD i none))).filterMap id = [] →
      rowLookup (r.rows.getD i []) c = some Cell.missing) := by
  rcases extract_ok_inv hok with ⟨cdfRaw, cdfDts, cmeRaw, cmeDts, _, _, _, _, hr⟩
  subst hr
  have hck : cdfKeys = keysOf cdfDts := by
    rw [buildResult_cdfOut, find?_addHelper_dtTrunc] at hk1
    exact (ColData.key.inj (Option.some.inj hk1)).symm
  have hmk : cmeKeys = keysOf cmeDts := by
    rw [buildResult_cmeOut, find?_addHelper_dtTrunc] at hk2
    exact (ColData.key.inj (Option.some.inj hk2)).symm
  have hi2 : i < cmeDts.length := by
    rw [buildResult_rows_length] at hi
    exact hi
  rw [buildResult_cdfOut] at hvals hmem hnd
  subst hck
  subst hmk
  rw [buildResult_rows_getD hi2]
  have hndobj : (objColsOf (addHelperCols df_cdf cdfDts)).Nodup :=
    (List.nodup_append.mp hnd).2.1
  have hlook := @aggRowFor_lookup_obj (addHelperCols df_cdf cdfDts)
    (numColsOf (addHelperCols df_cdf cdfDts)) (objColsOf (addHelperCols df_cdf cdfDts))
    (keysOf cdfDts) ((keysOf cmeDts).getD i none) (cmeRaw.getD i RawTS.missing) c
    hne hmem hndobj ht0c
  have hvs : (addHelperCols df_cdf cdfDts).objValsOf c = vs := by
    unfold Table.objValsOf
    rw [hvals]
  rw [hvs, modeOpt_eq_specModeMin] at hlook
  refine ⟨hlook, fun hall => ?_⟩
  rw [← modeOpt_eq_specModeMin, modeOpt_all_missing hall] at hlook
  rw [hlook]
  rfl

/-- C3 witness: the tie `["b","a"]` resolves to the sorted-least value. -/
theorem extract_categorical_mode_sorted_witness :
    rowLookup ((buildResult tieCdf exCme [RawTS.valid "2025/05/01 12:03" tsEvent]
        [some ts120307, some ts120359] [some tsEvent]).rows.getD 0 []) "cat" =
      some (strCell (specModeMin (selectAt [some "b", some "a"]
        (matchIndices [some ⟨2025, 5, 1, 12, 3⟩, some ⟨2025, 5, 1, 12, 3⟩]
          (([some ⟨2025, 5, 1, 12, 3⟩] : List (Option TKey)).getD 0 none))))) :=
  (@extract_categorical_mode_sorted tieCdf exCme
    (buildResult tieCdf exCme [RawTS.valid "2025/05/01 12:03" tsEvent]
      [some ts120307, some ts120359] [some tsEvent])
    [some ⟨2025, 5, 1, 12, 3⟩, some ⟨2025, 5, 1, 12, 3⟩] [some ⟨2025, 5, 1, 12, 3⟩]
    0 "cat" [some "b", some "a"]
    rfl (by decide) (by decide) (by decide) (by decide) (by decide) (by decide)
    (by decide) (by decide)).1

/-- C6 counterexample: a field table containing a timestamp string the
parser rejects makes the call raise (the default `pd.to_datetime` has
`errors='raise'`), so normalization does fail instead of producing a
sentinel key for that row. -/
theorem unparseable_fails_counterexample :
    badCdf.find? "epoch_for_cdf_mod" =
      some (ColData.ts [RawTS.invalid "not-a-date"]) ∧
    extract_cme_matching_data badCdf exCme = Except.error Err.parseError :=
  ⟨rfl, rfl⟩

/-- C6 amended: a row whose timestamp string is unparseable makes the whole
call fail with the parse error; a row whose timestamp value is missing gets
the sentinel NaT key, matches no event key (not even another sentinel), and
its column is otherwise untouched in the returned table. -/
theorem timestamp_sentinel_policy :
    (∀ (col : List RawTS) (s : String), RawTS.invalid s ∈ col →
      toDatetime col = Except.error Err.parseError) ∧
    (∀ (col : List RawTS) (dts : List (Option DT)) (j : Nat),
      toDatetime col = Except.ok dts → col.getD j RawTS.missing = RawTS.missing →
      dts.getD j none = none) ∧
    (∀ (ks : List (Option TKey)) (j : Nat), ks.getD j none = none →
      ∀ k? : Option TKey, j ∉ matchIndices ks k?) ∧
    (∀ ks : List (Option TKey), matchIndices ks none = []) ∧
    (∀ (a b : Table) (r : ExtractResult),
      extract_cme_matching_data a b = Except.ok r →
      r.cdfOut.find? "epoch_for_cdf_mod" = a.find? "epoch_for_cdf_mod") := by
  refine ⟨?_, ?_, ?_, ?_, ?_⟩
  · intro col s h
    exact toDatetime_invalid h
  · intro col dts j h1 h2
    exact toDatetime_missing_getD h1 h2
  · intro ks j h k?
    exact not_mem_matchIndices_of_sentinel h k?
  · intro ks
    exact matchIndices_none ks
  · intro a b r hok
    rcases extract_ok_inv hok with ⟨cdfRaw, cdfDts, cmeRaw, cmeDts, _, _, _, _, hr⟩
    subst hr
    rw [buildResult_cdfOut]
    exact find?_addHelper_other a cdfDts _ (by decide) (by decide)

/-- C6 witness: concrete instances of the amended policy — the bad column
fails, a missing cell becomes NaT and is in no match set, and the raw
timestamp column of the scenario run is unchanged. -/
theorem timestamp_sentinel_policy_witness :
    toDatetime [RawTS.invalid "not-a-date"] = Except.error Err.parseError ∧
    (([none] : List (Option TKey)).getD 0 none = none →
      ∀ k? : Option TKey, 0 ∉ matchIndices [none] k?) ∧
    exResult.cdfOut.find? "epoch_for_cdf_mod" = exCdf.find? "epoch_for_cdf_mod" :=
  ⟨timestamp_sentinel_policy.1 [RawTS.invalid "not-a-date"] "not-a-date" (by decide),
   timestamp_sentinel_policy.2.2.1 [none] 0,
   timestamp_sentinel_policy.2.2.2.2 exCdf exCme exResult rfl⟩

/-- C7 counterexample: a successful call hands back the caller's field table
with the two helper columns `datetime` and `dt_trunc` appended, so the input
table is observably mutated. -/
theorem mutation_counterexample :
    (extract_cme_matching_data exCdf exCme).toOption.map
        (fun r => r.cdfOut.cols.map Prod.fst) =
      some ["epoch_for_cdf_mod", "v", "cat", "datetime", "dt_trunc"] ∧
    exCdf.cols.map Prod.fst = ["epoch_for_cdf_mod", "v", "cat"] ∧
    (extract_cme_matching_data exCdf exCme).toOption.map
        (fun r => r.cmeOut.cols.map Prod.fst) =
      some ["t0", "datetime", "dt_trunc"] ∧
    exCme.cols.map Prod.fst = ["t0"] :=
  ⟨by decide, rfl, by decide, rfl⟩

/-- C7 amended: the call mutates each input table only by writing the two
helper columns `datetime` and `dt_trunc`; every other column of both tables
is unchanged. -/
theorem extract_mutates_only_helper_columns {a b : Table} {r : ExtractResult}
    (hok : extract_cme_matching_data a b = Except.ok r) :
    ∀ n : String, n ≠ "datetime" → n ≠ "dt_trunc" →
      r.cdfOut.find? n = a.find? n ∧ r.cmeOut.find? n = b.find? n := by
  rcases extract_ok_inv hok with ⟨cdfRaw, cdfDts, cmeRaw, cmeDts, _, _, _, _, hr⟩
  subst hr
  intro n h1 h2
  rw [buildResult_cdfOut, buildResult_cmeOut]
  exact ⟨find?_addHelper_other a cdfDts n h1 h2, find?_addHelper_other b cmeDts n h1 h2⟩

/-- C7 witness: on the scenario run the data columns `v` and `cat` of the
field table are unchanged. -/
theorem extract_mutates_only_helper_columns_witness :
    exResult.cdfOut.find? "v" = exCdf.find? "v" ∧
      exResult.cmeOut.find? "v" = exCme.find? "v" :=
  @extract_mutates_only_helper_columns exCdf exCme exResult rfl "v"
    (by decide) (by decide)

/-- C8 counterexample: with the `t0` column absent from the event table but
an unparseable timestamp in the field table, the call fails with the
timestamp-parse error (raised first, at the field-table parse), not with the
missing-column `SchemaError`. -/
theorem schema_error_counterexample :
    noT0Cme.find? "t0" = none ∧
    extract_cme_matching_data badCdf noT0Cme = Except.error Err.parseError ∧
    Err.parseError ≠ Err.schemaError :=
  ⟨rfl, rfl, by decide⟩

/-- C8 amended: a missing `epoch_for_cdf_mod` column fails with
`SchemaError`; a missing `t0` column fails with `SchemaError` provided the
field table's timestamp column was fetched and parsed; any missing
designated column makes the call fail before any output row exists; and a
successful call returns exactly one row per event. -/
theorem schema_error_policy :
    (∀ a b : Table, a.find? "epoch_for_cdf_mod" = none →
      extract_cme_matching_data a b = Except.error Err.schemaError) ∧
    (∀ (a b : Table) (raw : List RawTS) (dts : List (Option DT)),
      getTsCol a "epoch_for_cdf_mod" = Except.ok raw →
      toDatetime raw = Except.ok dts → b.find? "t0" = none →
      extract_cme_matching_data a b = Except.error Err.schemaError) ∧
    (∀ a b : Table,
      (a.find? "epoch_for_cdf_mod" = none ∨ b.find? "t0" = none) →
      ∃ e, extract_cme_matching_data a b = Except.error e) ∧
    (∀ (a b : Table) (r : ExtractResult) (cmeRaw : List RawTS),
      extract_cme_matching_data a b = Except.ok r →
      b.find? "t0" = some (ColData.ts cmeRaw) →
      r.rows.length = cmeRaw.length) := by
  have hcdf : ∀ a b : Table, a.find? "epoch_for_cdf_mod" = none →
      extract_cme_matching_data a b = Except.error Err.schemaError := by
    intro a b h
    unfold extract_cme_matching_data
    rw [getTsCol_none h]
  have hcme : ∀ (a b : Table) (raw : List RawTS) (dts : List (Option DT)),
      getTsCol a "epoch_for_cdf_mod" = Except.ok raw →
      toDatetime raw = Except.ok dts → b.find? "t0" = none →
      extract_cme_matching_data a b = Except.error Err.schemaError := by
    intro a b raw dts h1 h2 h3
    unfold extract_cme_matching_data
    simp only [h1, h2, getTsCol_none h3]
  refine ⟨hcdf, hcme, ?_, ?_⟩
  · intro a b hor
    rcases hor with h | h
    · exact ⟨Err.schemaError, hcdf a b h⟩
    · cases h1 : getTsCol a "epoch_for_cdf_mod" with
      | error e =>
          refine ⟨e, ?_⟩
          unfold extract_cme_matching_data
          rw [h1]
      | ok raw =>
          cases h2 : toDatetime raw with
          | error e =>
              refine ⟨e, ?_⟩
              unfold extract_cme_matching_data
              simp only [h1, h2]
          | ok dts => exact ⟨Err.schemaError, hcme a b raw dts h1 h2 h⟩
  · intro a b r cmeRaw hok ht0
    rcases extract_ok_inv hok with ⟨cdfRaw, cdfDts, cmeRaw2, cmeDts, _, _, h3, h4, hr⟩
    have hraw : cmeRaw2 = cmeRaw := by
      have h5 := getTsCol_ok_inv h3
      rw [ht0] at h5
      exact (ColData.ts.inj (Option.some.inj h5)).symm
    rw [hraw] at h4 hr
    subst hr
    rw [buildResult_rows_length]
    exact toDatetime_ok_length h4

/-- C8 witness: a field table without its timestamp column fails with
`SchemaError`, as does an event table without `t0` when the field side is
clean. -/
theorem schema_error_policy_witness :
    extract_cme_matching_data noT0Cme exCme = Except.error Err.schemaError ∧
    extract_cme_matching_data exCdf noT0Cme = Except.error Err.schemaError :=
  ⟨schema_error_policy.1 noT0Cme exCme (by decide),
   schema_error_policy.2.1 exCdf noT0Cme
     [RawTS.valid "2025-05-01 12:03:07" ts120307, RawTS.valid "2025-05-01 12:03:59" ts120359]
     [some ts120307, some ts120359] rfl rfl (by decide)⟩

/-! ### Lemmas about column names and classification -/

theorem names_setColList (l : List (String × ColData)) (n : String) (c : ColData) :
    (setColList l n c).map Prod.fst =
      if n ∈ l.map Prod.fst then l.map Prod.fst else l.map Prod.fst ++ [n] := by
  induction l with
  | nil => simp [setColList]
  | cons p t ih =>
      by_cases hp : p.1 = n
      · have hstep : setColList (p :: t) n c = (n, c) :: t := by simp [setColList, hp]
        rw [hstep]
        have hmem : n ∈ (p :: t).map Prod.fst := by
          simp only [List.map_cons, List.mem_cons]
          exact Or.inl hp.symm
        rw [if_pos hmem]
        simp [hp]
      · have hstep : setColList (p :: t) n c = p :: setColList t n c := by
          simp [setColList, hp]
        rw [hstep]
        have hnp : ¬ n = p.1 := fun h => hp h.symm
        by_cases hm : n ∈ t.map Prod.fst
        · have hmem : n ∈ (p :: t).map Prod.fst := by simp [hm]
          rw [if_pos hmem]
          simp only [List.map_cons]
          rw [ih, if_pos hm]
        · have hmem : n ∉ (p :: t).map Prod.fst := by simp [hnp, hm]
          rw [if_neg hmem]
          simp only [List.map_cons]
          rw [ih, if_neg hm]
          rfl

theorem nodup_names_setColList {l : List (String × ColData)} (n : String) (c : ColData)
    (h : (l.map Prod.fst).Nodup) : ((setColList l n c).map Prod.fst).Nodup := by
  rw [names_setColList]
  by_cases hm : n ∈ l.map Prod.fst
  · rw [if_pos hm]; exact h
  · rw [if_neg hm]
    simp [List.nodup_append, h, hm]

theorem nodup_names_addHelper (t : Table) (dts : List (Option DT))
    (h : (t.cols.map Prod.fst).Nodup) :
    ((addHelperCols t dts).cols.map Prod.fst).Nodup :=
  nodup_names_setColList _ _ (nodup_names_setColList _ _ h)

theorem mem_selectCols_inv {t : Table} {p : ColData → Bool} {n : String}
    (h : n ∈ selectCols t p) : ∃ cd, (n, cd) ∈ t.cols ∧ p cd = true := by
  unfold selectCols at h
  rcases List.mem_map.mp h with ⟨⟨n2, cd⟩, hq, hqn⟩
  cases hqn
  rcases List.mem_filter.mp hq with ⟨hq1, hq2⟩
  exact ⟨cd, hq1, hq2⟩

theorem findCol_of_mem_nodup : ∀ {l : List (String × ColData)} {n : String} {cd : ColData},
    (l.map Prod.fst).Nodup → (n, cd) ∈ l → findCol l n = some cd := by
  intro l
  induction l with
  | nil => intro n cd _ h; cases h
  | cons p t ih =>
      intro n cd hnd hmem
      have hnd2 : p.1 ∉ t.map Prod.fst ∧ (t.map Prod.fst).Nodup :=
        List.nodup_cons.mp hnd
      rcases List.mem_cons.mp hmem with h1 | h1
      · rw [← h1]
        simp [findCol]
      · have hn : n ∈ t.map Prod.fst := List.mem_map.mpr ⟨(n, cd), h1, rfl⟩
        have hne : ¬ p.1 = n := fun h => hnd2.1 (h ▸ hn)
        rw [show findCol (p :: t) n = findCol t n from by simp [findCol, hne]]
        exact ih hnd2.2 h1

theorem mem_foldl_erase : ∀ {hs : List String} {l : List String} {n : String},
    n ∈ hs.foldl (fun l h => l.erase h) l → n ∈ l := by
  intro hs
  induction hs with
  | nil => intro l n h; exact h
  | cons h t ih =>
      intro l n hm
      exact List.mem_of_mem_erase (ih hm)

/-- Every column name of an output row is a classified numeric name,
a classified categorical name, or `cme_t0`. -/
theorem aggRowFor_fst_mem {cdf1 : Table} {numCols objCols : List String}
    {cdfKeys : List (Option TKey)} {k? : Option TKey} {t0 : RawTS} {p : String × Cell}
    (h : p ∈ aggRowFor cdf1 numCols objCols cdfKeys k? t0) :
    p.1 ∈ numCols ∨ p.1 ∈ objCols ∨ p.1 = "cme_t0" := by
  by_cases hidx : (matchIndices cdfKeys k?).isEmpty = true
  · unfold aggRowFor at h
    rw [if_pos hidx] at h
    rcases mem_dictSet h with h1 | h1
    · rcases mem_foldl_dictSet h1 with h2 | h2
      · cases h2
      · rcases h2 with ⟨k, hk, hpk⟩
        subst hpk
        rcases List.mem_append.mp hk with hk1 | hk1
        · exact Or.inl hk1
        · exact Or.inr (Or.inl hk1)
    · subst h1
      exact Or.inr (Or.inr rfl)
  · unfold aggRowFor at h
    rw [if_neg hidx] at h
    rcases mem_dictSet h with h1 | h1
    · rcases mem_foldl_dictSet h1 with h2 | h2
      · rcases mem_foldl_dictSet h2 with h3 | h3
        · cases h3
        · rcases h3 with ⟨k, hk, hpk⟩
          subst hpk
          exact Or.inl hk
      · rcases h2 with ⟨k, hk, hpk⟩
        subst hpk
        exact Or.inr (Or.inl hk)
    · subst h1
      exact Or.inr (Or.inr rfl)

/-- C9: every output row consists of the classified numeric column names
first, then the classified categorical names, then the single `cme_t0`
column, which carries the event's raw, untruncated `t0` value. -/
theorem extract_output_column_order {df_cdf df_cme : Table} {r : ExtractResult}
    {cmeRaw : List RawTS} {i : Nat}
    (hok : extract_cme_matching_data df_cdf df_cme = Except.ok r)
    (ht0 : df_cme.find? "t0" = some (ColData.ts cmeRaw))
    (hi : i < r.rows.length)
    (hnd : (numColsOf r.cdfOut ++ objColsOf r.cdfOut).Nodup)
    (hfresh : "cme_t0" ∉ numColsOf r.cdfOut ++ objColsOf r.cdfOut) :
    (r.rows.getD i []).map Prod.fst =
      numColsOf r.cdfOut ++ objColsOf r.cdfOut ++ ["cme_t0"] ∧
    rowLookup (r.rows.getD i []) "cme_t0" =
      some (Cell.rts (cmeRaw.getD i RawTS.missing)) := by
  rcases extract_ok_inv hok with ⟨cdfRaw, cdfDts, cmeRaw2, cmeDts, _, _, h3, h4, hr⟩
  have hraw : cmeRaw2 = cmeRaw := by
    have h5 := getTsCol_ok_inv h3
    rw [ht0] at h5
    exact (ColData.ts.inj (Option.some.inj h5)).symm
  rw [hraw] at h4 hr
  subst hr
  have hi2 : i < cmeDts.length := by
    rw [buildResult_rows_length] at hi
    exact hi
  rw [buildResult_cdfOut] at hnd hfresh
  rw [buildResult_rows_getD hi2, buildResult_cdfOut]
  exact ⟨aggRowFor_names hnd hfresh, aggRowFor_lookup_t0 _ _ _ _ _ _⟩

/-- C9 witness: on the scenario run the single output row's columns are
`v`, `cat`, `cme_t0` in that order. -/
theorem extract_output_column_order_witness :
    (exResult.rows.getD 0 []).map Prod.fst =
      numColsOf exResult.cdfOut ++ objColsOf exResult.cdfOut ++ ["cme_t0"] :=
  (@extract_output_column_order exCdf exCme exResult
    [RawTS.valid "2025/05/01 12:03" tsEvent] 0
    rfl (by decide) (by decide) (by decide) (by decide)).1

/-- C10: a field-table column whose dtype is neither numeric nor object
(e.g. a boolean or datetime column) appears in no output row; the call
succeeds regardless, with no error for the dropped column. -/
theorem extract_drops_unclassified_columns {df_cdf df_cme : Table} {r : ExtractResult}
    {i : Nat} {n : String} {cd : ColData}
    (hok : extract_cme_matching_data df_cdf df_cme = Except.ok r)
    (hi : i < r.rows.length)
    (hnodup : (df_cdf.cols.map Prod.fst).Nodup)
    (hfind : df_cdf.find? n = some cd)
    (hnum : cd.isNum = false) (hobj : cd.isObj = false)
    (hn : n ≠ "cme_t0") :
    n ∉ (r.rows.getD i []).map Prod.fst := by
  rcases extract_ok_inv hok with ⟨cdfRaw, cdfDts, cmeRaw, cmeDts, _, _, _, _, hr⟩
  subst hr
  have hi2 : i < cmeDts.length := by
    rw [buildResult_rows_length] at hi
    exact hi
  rw [buildResult_rows_getD hi2]
  intro hmem
  rcases List.mem_map.mp hmem with ⟨p, hp, hpn⟩
  have hnd1 : ((addHelperCols df_cdf cdfDts).cols.map Prod.fst).Nodup :=
    nodup_names_addHelper df_cdf cdfDts hnodup
  have hfind1 : ∀ cd2 : ColData,
      (addHelperCols df_cdf cdfDts).find? n = some cd2 →
      cd2.isNum = false ∧ cd2.isObj = false := by
    intro cd2 hcd2
    by_cases h1 : n = "dt_trunc"
    · subst h1
      rw [find?_addHelper_dtTrunc] at hcd2
      cases Option.some.inj hcd2
      exact ⟨rfl, rfl⟩
    · by_cases h2 : n = "datetime"
      · subst h2
        rw [find?_addHelper_datetime] at hcd2
        cases Option.some.inj hcd2
        exact ⟨rfl, rfl⟩
      · rw [find?_addHelper_other df_cdf cdfDts n h2 h1, hfind] at hcd2
        cases Option.some.inj hcd2
        exact ⟨hnum, hobj⟩
  rcases aggRowFor_fst_mem hp with hcase | hcase | hcase
  · rw [hpn] at hcase
    have hsel : n ∈ selectCols (addHelperCols df_cdf cdfDts) ColData.isNum :=
      mem_foldl_erase hcase
    rcases mem_selectCols_inv hsel with ⟨cd2, hcd2mem, hcd2num⟩
    have hfc : (addHelperCols df_cdf cdfDts).find? n = some cd2 :=
      findCol_of_mem_nodup hnd1 hcd2mem
    rw [(hfind1 cd2 hfc).1] at hcd2num
    cases hcd2num
  · rw [hpn] at hcase
    have hsel : n ∈ selectCols (addHelperCols df_cdf cdfDts) ColData.isObj :=
      mem_foldl_erase hcase
    rcases mem_selectCols_inv hsel with ⟨cd2, hcd2mem, hcd2obj⟩
    have hfc : (addHelperCols df_cdf cdfDts).find? n = some cd2 :=
      findCol_of_mem_nodup hnd1 hcd2mem
    rw [(hfind1 cd2 hfc).2] at hcd2obj
    cases hcd2obj
  · rw [hpn] at hcase
    exact hn hcase

/-- C10 witness: the boolean column `flag` of `mixedCdf` is absent from the
output row of a successful run. -/
theorem extract_drops_unclassified_columns_witness :
    "flag" ∉ (mixedResult.rows.getD 0 []).map Prod.fst :=
  @extract_drops_unclassified_columns mixedCdf exCme mixedResult 0 "flag"
    (ColData.other 1) rfl (by decide) (by decide) (by decide) (by decide)
    (by decide) (by decide)

end CMEMatch
